import Mathlib

/-!
Formal model of the meme-replicator Cloudflare worker (src/worker.js)
together with its schema (schema-auth.sql).

The D1 database is modelled as lists of records kept in rowid
(insertion) order; each SQL statement is modelled by the corresponding
list operation.  A monotone counter seq models the datetime('now')
stamps written by the worker.  The randomness consumed by
generateUsername (Math.random) is modelled by an explicit list of
draws, one triple of naturals per loop iteration.  The base64/JSON
encoding of the session cookie (btoa(JSON.stringify(...)) in
buildSessionCookie, JSON.parse(atob(...)) in getUserFromRequest) is a
bijection on well-formed payloads, so a credential is modelled at the
decoded level: none models a request without a session cookie,
some none a cookie whose payload does not parse, and some (some sd) a
cookie whose payload parses to the session object sd.
-/

namespace MemeRep

/-- JS falsiness of a nullable string column: null and the empty string
are falsy, every other string is truthy. -/
def strFalsy : Option String → Bool
  | none => true
  | some s => s == ""

/-- Models the JS idiom a || b on a nullable string with fallback b. -/
def orElseStr (a : Option String) (b : String) : String :=
  match a with
  | some s => if s = "" then b else s
  | none => b

/-- String.prototype.trim: strip leading and trailing whitespace.
Implemented over the character list so that it evaluates inside the
kernel. -/
def jsTrim (s : String) : String :=
  String.mk (((s.data.dropWhile Char.isWhitespace).reverse.dropWhile
    Char.isWhitespace).reverse)

/-- String.prototype.toLowerCase restricted to its ASCII action,
over the character list so that it evaluates inside the kernel. -/
def jsToLower (s : String) : String :=
  String.mk (s.data.map Char.toLower)

/-- The character class [a-z0-9] of the username pattern in the
PUT /api/profile handler. -/
def isLowerAlnum (c : Char) : Bool :=
  ('a' ≤ c && c ≤ 'z') || ('0' ≤ c && c ≤ '9')

/-- Split a character list at every hyphen.  A string matches the
regex ^[a-z0-9]+(?:-[a-z0-9]+)*$ exactly when every resulting segment
is nonempty and made of [a-z0-9] characters. -/
def segsAux : List Char → List (List Char)
  | [] => [[]]
  | c :: cs =>
    if c = '-' then [] :: segsAux cs
    else
      match segsAux cs with
      | s :: rest => (c :: s) :: rest
      | [] => [[c]]

/-- A single segment of a valid username: nonempty, all [a-z0-9]. -/
def validSeg (seg : List Char) : Bool :=
  !seg.isEmpty && seg.all isLowerAlnum

/-- Models pattern.test(normalized) for /^[a-z0-9]+(?:-[a-z0-9]+)*$/ in
the PUT /api/profile handler. -/
def validFormat (s : String) : Bool :=
  (segsAux s.data).all validSeg

/-- A row of the users table (id, email, username, name).  The
created_at and last_login columns are omitted: no claim mentions them
and the worker only ever writes them. -/
structure User where
  id : Nat
  email : String
  username : Option String
  name : Option String
  deriving Repr, DecidableEq

/-- A row of the memes table.  score is the running fitness score,
createdAt the datetime('now') stamp modelled by the logical clock. -/
structure Meme where
  id : Nat
  content : String
  author : String
  userId : Option Nat
  score : Int
  createdAt : Nat
  deriving Repr, DecidableEq

/-- A row of the interactions table (the ledger). -/
structure Interaction where
  id : Nat
  memeId : Nat
  userId : Nat
  ty : String
  comment : String
  createdAt : Nat
  deriving Repr, DecidableEq

/-- The decoded payload of the session cookie, exactly the object
built by buildSessionCookie: userId, email, name, username, auth0Sub
and the expiry instant exp (milliseconds). -/
structure SessionData where
  userId : Nat
  email : String
  name : String
  username : Option String
  auth0Sub : Option String
  exp : Nat
  deriving Repr, DecidableEq

/-- The whole D1 database plus the autoincrement counters and the
logical clock.  Lists are kept in rowid (insertion) order. -/
structure DBState where
  users : List User
  memes : List Meme
  interactions : List Interaction
  nextUserId : Nat
  nextMemeId : Nat
  nextInteractionId : Nat
  seq : Nat
  deriving Repr, DecidableEq

/-- The JSON responses of the API handlers that the claims talk about. -/
inductive Resp where
  | ok
  | created (id : Nat)
  | profile (email : String) (username : Option String) (name : Option String)
  | authRequired
  | invalidData
  | duplicate
  | contentRequired
  | usernameRequired
  | usernameInvalid
  | usernameTaken
  | serverError
  deriving Repr, DecidableEq

/-- One iteration of randomness for generateUsername: the adjective
index, the noun index and the numeric suffix draw. -/
abbrev Draw := Nat × Nat × Nat

/-- SELECT * FROM users WHERE id = ? (first match in rowid order). -/
def findUser (st : DBState) (uid : Nat) : Option User :=
  st.users.find? (fun u => u.id == uid)

/-- UPDATE users SET username = ? WHERE id = ?. -/
def updateUsername (users : List User) (uid : Nat) (h : String) : List User :=
  users.map (fun u => if u.id == uid then { u with username := some h } else u)

/-- UPDATE users SET name = ? WHERE id = ?. -/
def setName (users : List User) (uid : Nat) (n : String) : List User :=
  users.map (fun u => if u.id == uid then { u with name := some n } else u)

/-- The adjective word list of generateUsername. -/
def adjectives : List String :=
  ["curious", "bold", "clever", "lively", "radiant", "vivid", "brisk", "lucid", "noble", "brave"]

/-- The noun word list of generateUsername. -/
def nouns : List String :=
  ["aurora", "comet", "nebula", "quark", "vector", "cipher", "vertex", "lyric", "signal", "riddle"]

/-- The decimal rendering of the numeric suffix.  The worker computes
Math.floor(100 + Math.random() * 900), a number in 100..999, and
splices its decimal digits into the template literal; the three digits
are written out explicitly here. -/
def suffixStr (k : Nat) : String :=
  let n := 100 + k % 900
  String.mk [Nat.digitChar (n / 100), Nat.digitChar (n / 10 % 10), Nat.digitChar (n % 10)]

/-- One candidate of generateUsername,
the template literal adjective-noun-suffix.  The two Math.random index
draws are modelled by reduction modulo the list lengths. -/
def mkCandidate (a n k : Nat) : String :=
  adjectives.getD (a % adjectives.length) "" ++ "-" ++
    nouns.getD (n % nouns.length) "" ++ "-" ++ suffixStr k

/-- SELECT id FROM users WHERE username = ? used as an existence check. -/
def usernameTaken (users : List User) (c : String) : Bool :=
  users.any (fun u => u.username == some c)

/-- The retry loop of generateUsername over the available draws:
return the first candidate that is not taken. -/
def genAttempts (users : List User) : List Draw → Option String
  | [] => none
  | d :: ds =>
    let c := mkCandidate d.1 d.2.1 d.2.2
    if usernameTaken users c then genAttempts users ds else some c

/-- The maxAttempts default of generateUsername. -/
def maxAttempts : Nat := 25

/-- generateUsername(env, maxAttempts = 25): up to 25 random draws,
returning the first free candidate; none models the thrown
"Unable to generate unique username" error (AllocationExhausted). -/
def generateUsername (users : List User) (draws : List Draw) : Option String :=
  genAttempts users (draws.take maxAttempts)

/-- The session validity window, 30 * 24 * 60 * 60 * 1000 ms. -/
def sessionDurationMs : Nat := 30 * 24 * 60 * 60 * 1000

/-- buildSessionCookie(user, auth0User): the decoded payload of the
issued cookie.  auth0Name, auth0Nickname and auth0Sub are the fields
of the optional auth0User argument (all none when it is null). -/
def buildSessionCookie (u : User) (auth0Name auth0Nickname auth0Sub : Option String)
    (now : Nat) : SessionData :=
  { userId := u.id
  , email := u.email
  , name := orElseStr u.name (orElseStr auth0Name (orElseStr auth0Nickname u.email))
  , username := u.username
  , auth0Sub := auth0Sub
  , exp := now + sessionDurationMs }

/-- getUserFromRequest: decode the session cookie, reject expired
payloads, look up the embedded user id, lazily backfill a missing
username, and return null on any failure (the surrounding try/catch
turns every thrown error, including allocation exhaustion, into null).
Returns the resolved user (if any) together with the possibly updated
database. -/
def getUserFromRequest (st : DBState) (cred : Option (Option SessionData)) (now : Nat)
    (draws : List Draw) : Option User × DBState :=
  match cred with
  | none => (none, st)
  | some none => (none, st)
  | some (some sd) =>
    if sd.exp < now then (none, st)
    else
      match findUser st sd.userId with
      | none => (none, st)
      | some u =>
        if strFalsy u.username then
          match generateUsername st.users draws with
          | none => (none, st)
          | some h =>
            (some { u with username := some h },
             { st with users := updateUsername st.users u.id h, seq := st.seq + 1 })
        else (some u, st)

/-- upsertAuth0User: find-or-create the user row for a verified email,
backfilling a missing display name and a missing username.  Returns
none in the second component when generateUsername throws. -/
def upsertAuth0User (st : DBState) (email : String) (name nickname : Option String)
    (draws : List Draw) : DBState × Option User :=
  let preferredName := orElseStr name (orElseStr nickname email)
  match st.users.find? (fun u => u.email == email) with
  | none =>
    match generateUsername st.users draws with
    | none => (st, none)
    | some h =>
      let u : User := { id := st.nextUserId, email := email, name := some preferredName,
                        username := some h }
      ({ st with users := st.users ++ [u], nextUserId := st.nextUserId + 1,
                 seq := st.seq + 1 }, some u)
  | some u =>
    let doName := strFalsy u.name && !(preferredName == "")
    let st1 := if doName then { st with users := setName st.users u.id preferredName,
                                        seq := st.seq + 1 } else st
    let u1 := if doName then { u with name := some preferredName } else u
    if strFalsy u1.username then
      match generateUsername st1.users draws with
      | none => (st1, none)
      | some h =>
        ({ st1 with users := updateUsername st1.users u1.id h, seq := st1.seq + 1 },
         some { u1 with username := some h })
    else (st1, some u1)

/-- PUT /api/profile: trim, lowercase, validate the 3-32 length and the
segment pattern, treat a self-set as a no-op success, reject a handle
held by a different user with 409, otherwise persist the new handle. -/
def putProfile (st : DBState) (uid? : Option Nat) (candidate : String) : DBState × Resp :=
  match uid?.bind (findUser st) with
  | none => (st, .authRequired)
  | some u =>
    let rawUsername := jsTrim candidate
    if rawUsername = "" then (st, .usernameRequired)
    else
      let normalized := jsToLower rawUsername
      if normalized.length < 3 ∨ 32 < normalized.length ∨ validFormat normalized = false then
        (st, .usernameInvalid)
      else if u.username = some normalized then
        (st, .profile u.email u.username u.name)
      else
        match st.users.find? (fun v => v.username == some normalized) with
        | some v =>
          if v.id = u.id then
            ({ st with users := updateUsername st.users u.id normalized, seq := st.seq + 1 },
             .profile u.email (some normalized) u.name)
          else (st, .usernameTaken)
        | none =>
          ({ st with users := updateUsername st.users u.id normalized, seq := st.seq + 1 },
           .profile u.email (some normalized) u.name)

/-- POST /api/memes: reject unauthenticated callers and empty-after-trim
content, snapshot the author label, insert the row with score 100. -/
def postMeme (st : DBState) (uid? : Option Nat) (content : String) : DBState × Resp :=
  match uid?.bind (findUser st) with
  | none => (st, .authRequired)
  | some u =>
    if jsTrim content = "" then (st, .contentRequired)
    else
      let authorLabel :=
        if strFalsy u.username then orElseStr u.name u.email
        else "@" ++ u.username.getD ""
      let m : Meme := { id := st.nextMemeId, content := jsTrim content, author := authorLabel,
                        userId := some u.id, score := 100, createdAt := st.seq }
      ({ st with memes := st.memes ++ [m], nextMemeId := st.nextMemeId + 1,
                 seq := st.seq + 1 }, .created st.nextMemeId)

/-- The switch statement mapping a reaction type to its score delta
(default 0, unreachable after validation). -/
def scoreChange (ty : String) : Int :=
  if ty = "refute" then -15 else if ty = "refine" then 10 else if ty = "praise" then 5 else 0

/-- The ['refute', 'refine', 'praise'].includes(type) check. -/
def validType (ty : String) : Bool :=
  ["refute", "refine", "praise"].contains ty

/-- SELECT id FROM interactions WHERE meme_id = ? AND user_id = ? AND type = ?. -/
def hasTriple (st : DBState) (memeId uid : Nat) (ty : String) : Bool :=
  st.interactions.any (fun i => i.memeId == memeId && i.userId == uid && i.ty == ty)

/-- POST /api/interactions with an explicit failure model for the two
writes: insertOk models whether the ledger INSERT commits, updateOk
whether the subsequent score UPDATE commits.  A failed write throws,
is caught by the handleAPI catch-all and reported as a 500 server
error; a write that already committed stays committed.

The INSERT is subject to the foreign key
interactions.meme_id REFERENCES memes(id) declared in schema.sql,
which D1 enforces: when meme_id references no meme row the INSERT
throws a constraint error and writes nothing, surfaced as the same
500 by the catch-all.  The user_id reference added by
schema-auth.sql is always satisfied because currentUser is a freshly
loaded row of the users table. -/
def postInteractionF (st : DBState) (uid? : Option Nat) (memeId : Nat) (ty comment : String)
    (insertOk updateOk : Bool) : DBState × Resp :=
  match uid?.bind (findUser st) with
  | none => (st, .authRequired)
  | some u =>
    if memeId = 0 ∨ validType ty = false then (st, .invalidData)
    else if hasTriple st memeId u.id ty then (st, .duplicate)
    else if st.memes.any (fun m => m.id == memeId) = false then (st, .serverError)
    else if insertOk = false then (st, .serverError)
    else
      let i : Interaction := { id := st.nextInteractionId, memeId := memeId, userId := u.id,
                               ty := ty, comment := jsTrim comment, createdAt := st.seq }
      let st1 := { st with interactions := st.interactions ++ [i],
                           nextInteractionId := st.nextInteractionId + 1, seq := st.seq + 1 }
      if updateOk = false then (st1, .serverError)
      else
        let memes1 := st1.memes.map
          (fun m => if m.id == memeId then { m with score := m.score + scoreChange ty } else m)
        ({ st1 with memes := memes1 }, .ok)

/-- POST /api/interactions when both storage writes succeed. -/
def postInteraction (st : DBState) (uid? : Option Nat) (memeId : Nat)
    (ty comment : String) : DBState × Resp :=
  postInteractionF st uid? memeId ty comment true true

/-- The sum of the deltas of the interactions recorded for meme m
after m was created. -/
def sumDeltas (inters : List Interaction) (m : Meme) : Int :=
  ((inters.filter (fun i => i.memeId == m.id && decide (m.createdAt < i.createdAt))).map
    (fun i => scoreChange i.ty)).sum

/-- The sum of the deltas of all recorded interactions carrying meme
id memeId, as the spec words the score invariant. -/
def sumAllDeltas (inters : List Interaction) (memeId : Nat) : Int :=
  ((inters.filter (fun i => i.memeId == memeId)).map (fun i => scoreChange i.ty)).sum

/-- The operations that mutate the database, one constructor per
code path of the worker.  legacy seeds a username-less user row,
modelling the pre-migration data that schema-auth.sql upgrades
(ALTER TABLE users ADD COLUMN username). -/
inductive Op where
  | legacy (email : String)
  | signup (email : String) (name nickname : Option String) (draws : List Draw)
  | resolveReq (sd : SessionData) (now : Nat) (draws : List Draw)
  | profilePut (uid : Option Nat) (candidate : String)
  | memePost (uid : Option Nat) (content : String)
  | interactionPost (uid : Option Nat) (memeId : Nat) (ty : String) (comment : String)
  deriving Repr

/-- The state effect of one operation. -/
def step (st : DBState) : Op → DBState
  | .legacy email =>
    let u : User := { id := st.nextUserId, email := email, username := none, name := none }
    { st with users := st.users ++ [u], nextUserId := st.nextUserId + 1, seq := st.seq + 1 }
  | .signup email name nickname draws => (upsertAuth0User st email name nickname draws).1
  | .resolveReq sd now draws => (getUserFromRequest st (some (some sd)) now draws).2
  | .profilePut uid c => (putProfile st uid c).1
  | .memePost uid c => (postMeme st uid c).1
  | .interactionPost uid m t c => (postInteraction st uid m t c).1

/-- The empty store. -/
def initState : DBState :=
  { users := [], memes := [], interactions := [], nextUserId := 1, nextMemeId := 1,
    nextInteractionId := 1, seq := 0 }

/-- Run a sequence of operations. -/
def runOps : DBState → List Op → DBState
  | st, [] => st
  | st, op :: ops => runOps (step st op) ops

/-- A database state reachable from the empty store. -/
def Reachable (st : DBState) : Prop :=
  ∃ ops, runOps initState ops = st

/-- Score consistency relative to creation time: every meme's score is
the baseline 100 plus the deltas of the interactions recorded for it
after it was created. -/
def ScoreInv (st : DBState) : Prop :=
  ∀ m ∈ st.memes, m.score = 100 + sumDeltas st.interactions m

/-- All stored timestamps lie strictly below the clock. -/
def StampInv (st : DBState) : Prop :=
  (∀ m ∈ st.memes, m.createdAt < st.seq) ∧ (∀ i ∈ st.interactions, i.createdAt < st.seq)

/-- User ids are pairwise distinct and below the autoincrement counter. -/
def IdsInv (st : DBState) : Prop :=
  st.users.Pairwise (fun u v => u.id ≠ v.id) ∧ ∀ u ∈ st.users, u.id < st.nextUserId

/-- No two rows of the users table hold the same username
(the idx_users_username unique index). -/
def HandleUniqueInv (st : DBState) : Prop :=
  st.users.Pairwise (fun u v => ∀ h, ¬(u.username = some h ∧ v.username = some h))

/-- Every stored username passes the format rule and the 3-32 length
bound enforced by the allocator and the profile handler. -/
def HandleFormatInv (st : DBState) : Prop :=
  ∀ u ∈ st.users, ∀ h, u.username = some h →
    validFormat h = true ∧ 3 ≤ h.length ∧ h.length ≤ 32

/-- Meme ids stay below the autoincrement counter (AUTOINCREMENT
never reuses an id). -/
def MemeIdsInv (st : DBState) : Prop :=
  ∀ m ∈ st.memes, m.id < st.nextMemeId

/-- Referential integrity of the ledger: every interaction's meme_id
references a stored meme row (the enforced foreign key). -/
def FKInv (st : DBState) : Prop :=
  ∀ i ∈ st.interactions, ∃ m ∈ st.memes, m.id = i.memeId

/-- Every interaction was recorded after the meme it references was
created: the foreign key makes the insert possible only while the
meme row exists, and ids are never reused. -/
def AfterInv (st : DBState) : Prop :=
  ∀ i ∈ st.interactions, ∀ m ∈ st.memes, i.memeId = m.id → m.createdAt < i.createdAt

/-- The conjunction of all maintained invariants. -/
def Inv (st : DBState) : Prop :=
  ScoreInv st ∧ StampInv st ∧ IdsInv st ∧ HandleUniqueInv st ∧ HandleFormatInv st ∧
    MemeIdsInv st ∧ FKInv st ∧ AfterInv st

/-! ### Concrete states used to exercise the claims -/

/-- A well-behaved trace: a user, an item, one praise on it. -/
def praiseOps : List Op :=
  [Op.legacy "a@x", Op.memePost (some 1) "hello", Op.interactionPost (some 1) 1 "praise" "good"]

def praiseState : DBState := runOps initState praiseOps

/-- The single item of praiseState after the praise landed. -/
def praiseMeme : Meme :=
  { id := 1, content := "hello", author := "a@x", userId := some 1, score := 105, createdAt := 1 }

/-- A user, an item, and an existing refute by that user on it. -/
def refuteState : DBState :=
  runOps initState
    [Op.legacy "a@x", Op.memePost (some 1) "idea", Op.interactionPost (some 1) 1 "refute" ""]

/-- Two users with handles alice-one and bob-two. -/
def twoHandleOps : List Op :=
  [Op.legacy "a@x", Op.legacy "b@x", Op.profilePut (some 1) "alice-one",
   Op.profilePut (some 2) "bob-two"]

def twoHandleState : DBState := runOps initState twoHandleOps

/-- One user holding the handle my-handle. -/
def selfSetOps : List Op := [Op.legacy "a@x", Op.profilePut (some 1) "my-handle"]

def selfSetState : DBState := runOps initState selfSetOps

/-- One user and one item at the baseline score. -/
def oneMemeState : DBState := runOps initState [Op.legacy "a@x", Op.memePost (some 1) "hello"]

/-- One user and no items at all. -/
def oneUserState : DBState := runOps initState [Op.legacy "a@x"]

/-- The stored user behind the session forgery scenario. -/
def aliceUser : User :=
  { id := 1, email := "alice@example.com", username := some "alice-01", name := some "Alice" }

def aliceState : DBState :=
  { users := [aliceUser], memes := [], interactions := [], nextUserId := 2, nextMemeId := 1,
    nextInteractionId := 1, seq := 1 }

/-- A session payload an attacker can write down directly: it carries
the id of the stored user but was never produced by
buildSessionCookie (its expiry 5 is below every possible issuance
expiry now + 30 days). -/
def forgedSession : SessionData :=
  { userId := 1, email := "", name := "", username := none, auth0Sub := none, exp := 5 }

/-- A legacy user without a handle next to a user who already holds
the candidate curious-aurora-100 that the draw stream keeps
producing. -/
def exhaustState : DBState :=
  { users := [{ id := 1, email := "a@x", username := none, name := none },
              { id := 2, email := "b@x", username := some "curious-aurora-100", name := none }],
    memes := [], interactions := [], nextUserId := 3, nextMemeId := 1, nextInteractionId := 1,
    seq := 2 }

/-- An unexpired session payload for the handle-less user of
exhaustState. -/
def legacySession : SessionData :=
  { userId := 1, email := "a@x", name := "", username := none, auth0Sub := none, exp := 100 }

/-- The draw stream whose 25 candidates are all taken in
exhaustState. -/
def collidingDraws : List Draw := List.replicate 25 (0, 0, 0)

/-! ### Lemmas about the username format and the allocator -/

lemma lowerAlnum_ne_hyphen {c : Char} (h : isLowerAlnum c = true) : c ≠ '-' := by
  intro hc
  subst hc
  exact absurd h (by decide)

lemma segsAux_append_hyphen (xs ys : List Char) (h : ∀ c ∈ xs, c ≠ '-') :
    segsAux (xs ++ '-' :: ys) = xs :: segsAux ys := by
  induction xs with
  | nil => simp [segsAux]
  | cons c cs ih =>
    have hc : ¬ c = '-' := h c (by simp)
    have ih' := ih (fun d hd => h d (by simp [hd]))
    simp only [List.cons_append, segsAux, if_neg hc, List.append_eq, ih']

lemma segsAux_no_hyphen (xs : List Char) (h : ∀ c ∈ xs, c ≠ '-') :
    segsAux xs = [xs] := by
  induction xs with
  | nil => rfl
  | cons c cs ih =>
    have hc : ¬ c = '-' := h c (by simp)
    have ih' := ih (fun d hd => h d (by simp [hd]))
    simp only [segsAux, if_neg hc, ih']

lemma validSeg_of (xs : List Char) (h1 : xs ≠ []) (h2 : ∀ c ∈ xs, isLowerAlnum c = true) :
    validSeg xs = true := by
  cases xs with
  | nil => exact absurd rfl h1
  | cons c cs =>
    simp only [validSeg, List.isEmpty_cons, Bool.not_false, Bool.true_and, List.all_eq_true]
    exact h2

/-- A string assembled as segment-hyphen-segment-hyphen-segment from
nonempty [a-z0-9] segments passes the username pattern. -/
lemma validFormat_parts (A N D : List Char)
    (hA1 : A ≠ []) (hA2 : ∀ c ∈ A, isLowerAlnum c = true)
    (hN1 : N ≠ []) (hN2 : ∀ c ∈ N, isLowerAlnum c = true)
    (hD1 : D ≠ []) (hD2 : ∀ c ∈ D, isLowerAlnum c = true) :
    (segsAux (A ++ '-' :: (N ++ '-' :: D))).all validSeg = true := by
  have hAh : ∀ c ∈ A, c ≠ '-' := fun c hc => lowerAlnum_ne_hyphen (hA2 c hc)
  have hNh : ∀ c ∈ N, c ≠ '-' := fun c hc => lowerAlnum_ne_hyphen (hN2 c hc)
  have hDh : ∀ c ∈ D, c ≠ '-' := fun c hc => lowerAlnum_ne_hyphen (hD2 c hc)
  rw [segsAux_append_hyphen A _ hAh, segsAux_append_hyphen N _ hNh, segsAux_no_hyphen D hDh]
  simp only [List.all_cons, List.all_nil, Bool.and_eq_true,
    validSeg_of A hA1 hA2, validSeg_of N hN1 hN2, validSeg_of D hD1 hD2]
  simp

lemma adjective_facts : ∀ i, i < 10 →
    (adjectives.getD i "").data ≠ [] ∧
    (∀ c ∈ (adjectives.getD i "").data, isLowerAlnum c = true) ∧
    4 ≤ (adjectives.getD i "").length ∧ (adjectives.getD i "").length ≤ 7 := by decide

lemma noun_facts : ∀ i, i < 10 →
    (nouns.getD i "").data ≠ [] ∧
    (∀ c ∈ (nouns.getD i "").data, isLowerAlnum c = true) ∧
    5 ≤ (nouns.getD i "").length ∧ (nouns.getD i "").length ≤ 6 := by decide

lemma digitChar_lowerAlnum : ∀ d, d < 10 → isLowerAlnum (Nat.digitChar d) = true := by decide

lemma suffixStr_facts (k : Nat) :
    (suffixStr k).data ≠ [] ∧ (∀ c ∈ (suffixStr k).data, isLowerAlnum c = true) ∧
    (suffixStr k).length = 3 := by
  have h900 : k % 900 < 900 := Nat.mod_lt _ (by norm_num)
  have hlt : 100 + k % 900 < 1000 := by omega
  have hd1 : (100 + k % 900) / 100 < 10 := by
    rw [Nat.div_lt_iff_lt_mul (by norm_num : (0:Nat) < 100)]
    omega
  have hd2 : (100 + k % 900) / 10 % 10 < 10 := Nat.mod_lt _ (by norm_num)
  have hd3 : (100 + k % 900) % 10 < 10 := Nat.mod_lt _ (by norm_num)
  refine ⟨by simp [suffixStr], ?_, by simp [suffixStr, String.length]⟩
  intro c hc
  simp only [suffixStr, String.mk, List.mem_cons, List.not_mem_nil, or_false] at hc
  rcases hc with rfl | rfl | rfl
  · exact digitChar_lowerAlnum _ hd1
  · exact digitChar_lowerAlnum _ hd2
  · exact digitChar_lowerAlnum _ hd3

lemma data_hyphen : ("-" : String).data = ['-'] := rfl

lemma mkCandidate_data (a n k : Nat) :
    (mkCandidate a n k).data =
      (adjectives.getD (a % adjectives.length) "").data ++ '-' ::
        ((nouns.getD (n % nouns.length) "").data ++ '-' :: (suffixStr k).data) := by
  simp only [mkCandidate, String.data_append, data_hyphen]
  simp only [List.append_assoc, List.singleton_append, List.cons_append, List.nil_append]

/-- Every candidate of generateUsername passes the username pattern. -/
theorem validFormat_mkCandidate (a n k : Nat) : validFormat (mkCandidate a n k) = true := by
  have ha := adjective_facts (a % adjectives.length) (Nat.mod_lt _ (by decide))
  have hn := noun_facts (n % nouns.length) (Nat.mod_lt _ (by decide))
  have hs := suffixStr_facts k
  rw [validFormat, mkCandidate_data]
  exact validFormat_parts _ _ _ ha.1 ha.2.1 hn.1 hn.2.1 hs.1 hs.2.1

/-- Every candidate of generateUsername respects the 3-32 length bound
(its length is in fact between 14 and 18). -/
theorem length_mkCandidate (a n k : Nat) :
    3 ≤ (mkCandidate a n k).length ∧ (mkCandidate a n k).length ≤ 32 := by
  have ha := adjective_facts (a % adjectives.length) (Nat.mod_lt _ (by decide))
  have hn := noun_facts (n % nouns.length) (Nat.mod_lt _ (by decide))
  have hs := suffixStr_facts k
  have e : ∀ s : String, s.length = s.data.length := fun _ => rfl
  have hlen : (mkCandidate a n k).length =
      (adjectives.getD (a % adjectives.length) "").length + 1 +
        ((nouns.getD (n % nouns.length) "").length + 1 + (suffixStr k).length) := by
    simp only [e, mkCandidate_data, List.length_append, List.length_cons]
    omega
  omega

lemma mkCandidate_ne_empty (a n k : Nat) : mkCandidate a n k ≠ "" := by
  intro h
  have h3 := (length_mkCandidate a n k).1
  rw [h] at h3
  exact absurd h3 (by decide)

/-- Everything generateUsername hands back is a template candidate and
is free in the users table at allocation time. -/
lemma genAttempts_spec (users : List User) (ds : List Draw) (c : String)
    (h : genAttempts users ds = some c) :
    (∃ a n k, c = mkCandidate a n k) ∧ usernameTaken users c = false := by
  induction ds with
  | nil => simp [genAttempts] at h
  | cons d ds ih =>
    rw [genAttempts] at h
    by_cases ht : usernameTaken users (mkCandidate d.1 d.2.1 d.2.2) = true
    · rw [if_pos ht] at h
      exact ih h
    · rw [if_neg ht] at h
      refine ⟨⟨d.1, d.2.1, d.2.2, (Option.some_injective _ h).symm⟩, ?_⟩
      rw [← (Option.some_injective _ h)]
      exact Bool.eq_false_iff.mpr ht

lemma generateUsername_spec (users : List User) (draws : List Draw) (c : String)
    (h : generateUsername users draws = some c) :
    (∃ a n k, c = mkCandidate a n k) ∧ usernameTaken users c = false :=
  genAttempts_spec users (draws.take maxAttempts) c h

lemma usernameTaken_false_iff (users : List User) (c : String) :
    usernameTaken users c = false ↔ ∀ u ∈ users, u.username ≠ some c := by
  simp [usernameTaken]

/-! ### Lemmas about user lookup and update -/

lemma find?_map_of_id_preserved (l : List User) (f : User → User)
    (hid : ∀ u, (f u).id = u.id) (uid : Nat) :
    (l.map f).find? (fun v => v.id == uid) = (l.find? (fun v => v.id == uid)).map f := by
  induction l with
  | nil => rfl
  | cons u us ih =>
    cases hpu : (u.id == uid) with
    | true =>
      have h1 : ((f u).id == uid) = true := by rw [hid]; exact hpu
      rw [List.map_cons, @List.find?_cons_of_pos _ (fun v => v.id == uid) (f u) (us.map f) h1,
        @List.find?_cons_of_pos _ (fun v => v.id == uid) u us hpu, Option.map_some']
    | false =>
      have h1 : ¬ ((f u).id == uid) = true := by rw [hid]; simp [hpu]
      have h2 : ¬ (u.id == uid) = true := by simp [hpu]
      rw [List.map_cons, @List.find?_cons_of_neg _ (fun v => v.id == uid) (f u) (us.map f) h1,
        @List.find?_cons_of_neg _ (fun v => v.id == uid) u us h2, ih]

lemma findUser_update (users : List User) (uid : Nat) (hnew : String) (u : User)
    (hf : users.find? (fun v => v.id == uid) = some u) :
    (updateUsername users uid hnew).find? (fun v => v.id == uid) =
      some { u with username := some hnew } := by
  have hid : ∀ v : User, ((if v.id == uid then { v with username := some hnew } else v) : User).id
      = v.id := by
    intro v
    by_cases hv : (v.id == uid) = true <;> simp [hv]
  rw [updateUsername, find?_map_of_id_preserved _ _ hid uid, hf, Option.map_some']
  have hu : (u.id == uid) = true := by
    have h1 := List.find?_some hf
    simpa using h1
  simp [hu]

/-! ### Lemmas about the interaction delta sum -/

lemma sumDeltas_eq_zero (inters : List Interaction) (m : Meme)
    (h : ∀ i ∈ inters, i.createdAt ≤ m.createdAt) :
    sumDeltas inters m = 0 := by
  have hnil : inters.filter (fun i => i.memeId == m.id && decide (m.createdAt < i.createdAt))
      = [] := by
    rw [List.filter_eq_nil_iff]
    intro i hi
    have hle := h i hi
    simp only [Bool.and_eq_true, decide_eq_true_eq, not_and]
    intro _
    omega
  simp [sumDeltas, hnil]

lemma sumDeltas_append_mem (inters : List Interaction) (i0 : Interaction) (m : Meme)
    (hid : i0.memeId = m.id) (hlt : m.createdAt < i0.createdAt) :
    sumDeltas (inters ++ [i0]) m = sumDeltas inters m + scoreChange i0.ty := by
  simp [sumDeltas, List.filter_append, List.filter_cons, hid, hlt]

lemma sumDeltas_append_not_mem (inters : List Interaction) (i0 : Interaction) (m : Meme)
    (hid : i0.memeId ≠ m.id) :
    sumDeltas (inters ++ [i0]) m = sumDeltas inters m := by
  simp [sumDeltas, List.filter_append, List.filter_cons, hid]

lemma sumAll_eq_sumDeltas (inters : List Interaction) (m : Meme)
    (h : ∀ i ∈ inters, i.memeId = m.id → m.createdAt < i.createdAt) :
    sumAllDeltas inters m.id = sumDeltas inters m := by
  unfold sumAllDeltas sumDeltas
  have hfil : inters.filter (fun i => i.memeId == m.id) =
      inters.filter (fun i => i.memeId == m.id && decide (m.createdAt < i.createdAt)) := by
    apply List.filter_congr
    intro i hi
    by_cases hmi : (i.memeId == m.id) = true
    · have hlt := h i hi (by simpa using hmi)
      simp [hmi, hlt]
    · simp only [Bool.not_eq_true] at hmi
      simp [hmi]
  rw [hfil]

/-! ### Preservation of the invariants -/

lemma inv_users_only (st : DBState) (users1 : List User) (s1 : Nat)
    (hseq : st.seq ≤ s1)
    (hids : users1.Pairwise (fun u v => u.id ≠ v.id))
    (hbound : ∀ u ∈ users1, u.id < st.nextUserId)
    (huniq : users1.Pairwise (fun u v => ∀ h, ¬(u.username = some h ∧ v.username = some h)))
    (hfmt : ∀ u ∈ users1, ∀ h, u.username = some h →
      validFormat h = true ∧ 3 ≤ h.length ∧ h.length ≤ 32)
    (hInv : Inv st) :
    Inv { st with users := users1, seq := s1 } := by
  obtain ⟨hS, ⟨hSm, hSi⟩, _, _, _, hM, hFK, hA⟩ := hInv
  refine ⟨hS, ⟨?_, ?_⟩, ⟨hids, hbound⟩, huniq, hfmt, hM, hFK, hA⟩
  · intro m hm; exact lt_of_lt_of_le (hSm m hm) hseq
  · intro i hi; exact lt_of_lt_of_le (hSi i hi) hseq

lemma inv_addUser (st : DBState) (u0 : User) (hInv : Inv st)
    (hid0 : u0.id = st.nextUserId)
    (hh : ∀ h, u0.username = some h →
      (∀ v ∈ st.users, v.username ≠ some h) ∧ validFormat h = true ∧
        3 ≤ h.length ∧ h.length ≤ 32) :
    Inv { st with users := st.users ++ [u0], nextUserId := st.nextUserId + 1,
                  seq := st.seq + 1 } := by
  obtain ⟨hS, ⟨hSm, hSi⟩, ⟨hP, hB⟩, hU, hF, hM, hFK, hA⟩ := hInv
  refine ⟨hS, ⟨?_, ?_⟩, ⟨?_, ?_⟩, ?_, ?_, hM, hFK, hA⟩
  · intro m hm; exact Nat.lt_succ_of_lt (hSm m hm)
  · intro i hi; exact Nat.lt_succ_of_lt (hSi i hi)
  · rw [List.pairwise_append]
    refine ⟨hP, List.pairwise_singleton _ _, ?_⟩
    intro a ha b hb
    rw [List.mem_singleton] at hb
    subst hb
    rw [hid0]
    exact Nat.ne_of_lt (hB a ha)
  · intro u hu
    rcases List.mem_append.mp hu with h1 | h1
    · exact Nat.lt_succ_of_lt (hB u h1)
    · rw [List.mem_singleton] at h1
      subst h1
      rw [hid0]
      exact Nat.lt_succ_self _
  · show (st.users ++ [u0]).Pairwise
        (fun u v => ∀ h, ¬(u.username = some h ∧ v.username = some h))
    rw [List.pairwise_append]
    refine ⟨hU, List.pairwise_singleton _ _, ?_⟩
    intro a ha b hb
    rw [List.mem_singleton] at hb
    subst hb
    intro h hcon
    exact (hh h hcon.2).1 a ha hcon.1
  · intro u hu h huh
    rcases List.mem_append.mp hu with h1 | h1
    · exact hF u h1 h huh
    · rw [List.mem_singleton] at h1
      subst h1
      exact (hh h huh).2

lemma pairwise_ids_map (users : List User) (f : User → User)
    (hid : ∀ u, (f u).id = u.id)
    (h : users.Pairwise (fun u v => u.id ≠ v.id)) :
    (users.map f).Pairwise (fun u v => u.id ≠ v.id) := by
  rw [List.pairwise_map]
  refine h.imp ?_
  intro a b hab
  rw [hid, hid]
  exact hab

lemma bound_map (users : List User) (f : User → User) (n : Nat)
    (hid : ∀ u, (f u).id = u.id)
    (h : ∀ u ∈ users, u.id < n) :
    ∀ u ∈ users.map f, u.id < n := by
  intro u hu
  rcases List.mem_map.mp hu with ⟨v, hv, rfl⟩
  rw [hid]
  exact h v hv

lemma uniq_map_username_preserved (users : List User) (f : User → User)
    (hun : ∀ u, (f u).username = u.username)
    (h : users.Pairwise (fun u v => ∀ h, ¬(u.username = some h ∧ v.username = some h))) :
    (users.map f).Pairwise
      (fun u v => ∀ h, ¬(u.username = some h ∧ v.username = some h)) := by
  rw [List.pairwise_map]
  refine h.imp ?_
  intro a b hab
  rw [hun, hun]
  exact hab

lemma fmt_map_username_preserved (users : List User) (f : User → User)
    (hun : ∀ u, (f u).username = u.username)
    (h : ∀ u ∈ users, ∀ h, u.username = some h →
      validFormat h = true ∧ 3 ≤ h.length ∧ h.length ≤ 32) :
    ∀ u ∈ users.map f, ∀ h2, u.username = some h2 →
      validFormat h2 = true ∧ 3 ≤ h2.length ∧ h2.length ≤ 32 := by
  intro u hu h2 huh
  rcases List.mem_map.mp hu with ⟨v, hv, rfl⟩
  rw [hun] at huh
  exact h v hv h2 huh

lemma uniq_updateUsername (users : List User) (uid : Nat) (hnew : String)
    (hfresh : ∀ u ∈ users, u.username ≠ some hnew)
    (hids : users.Pairwise (fun u v => u.id ≠ v.id))
    (huniq : users.Pairwise (fun u v => ∀ h, ¬(u.username = some h ∧ v.username = some h))) :
    (updateUsername users uid hnew).Pairwise
      (fun u v => ∀ h, ¬(u.username = some h ∧ v.username = some h)) := by
  induction users with
  | nil => exact List.Pairwise.nil
  | cons u us ih =>
    rw [updateUsername, List.map_cons]
    rcases List.pairwise_cons.mp hids with ⟨hidu, hids2⟩
    rcases List.pairwise_cons.mp huniq with ⟨huu, huniq2⟩
    have hfresh2 : ∀ v ∈ us, v.username ≠ some hnew :=
      fun v hv => hfresh v (List.mem_cons_of_mem _ hv)
    refine List.pairwise_cons.mpr ⟨?_, ih hfresh2 hids2 huniq2⟩
    intro b hb hh hcon
    rcases List.mem_map.mp hb with ⟨v, hv, rfl⟩
    by_cases hu : (u.id == uid) = true
    · have hvne : ¬ (v.id == uid) = true := by
        have hne : u.id ≠ v.id := hidu v hv
        simp only [beq_iff_eq] at hu ⊢
        omega
      rw [if_pos hu, if_neg hvne] at hcon
      have heq : some hnew = some hh := hcon.1
      have hh' : hh = hnew := (Option.some_injective _ heq).symm
      subst hh'
      exact hfresh2 v hv hcon.2
    · rw [if_neg hu] at hcon
      by_cases hv2 : (v.id == uid) = true
      · rw [if_pos hv2] at hcon
        have heq : some hnew = some hh := hcon.2
        have hh' : hh = hnew := (Option.some_injective _ heq).symm
        subst hh'
        exact hfresh u (List.mem_cons_self _ _) hcon.1
      · rw [if_neg hv2] at hcon
        exact huu v hv hh hcon

lemma fmt_updateUsername (users : List User) (uid : Nat) (hnew : String)
    (hold : ∀ u ∈ users, ∀ h, u.username = some h →
      validFormat h = true ∧ 3 ≤ h.length ∧ h.length ≤ 32)
    (hnewP : validFormat hnew = true ∧ 3 ≤ hnew.length ∧ hnew.length ≤ 32) :
    ∀ u ∈ updateUsername users uid hnew, ∀ h, u.username = some h →
      validFormat h = true ∧ 3 ≤ h.length ∧ h.length ≤ 32 := by
  intro u hu h huh
  rcases List.mem_map.mp hu with ⟨v, hv, rfl⟩
  by_cases hv2 : (v.id == uid) = true
  · rw [if_pos hv2] at huh
    have heq : some hnew = some h := huh
    have hh' : h = hnew := (Option.some_injective _ heq).symm
    subst hh'
    exact hnewP
  · rw [if_neg hv2] at huh
    exact hold v hv h huh

lemma ids_updateUsername (users : List User) (uid : Nat) (hnew : String)
    (hids : users.Pairwise (fun u v => u.id ≠ v.id)) :
    (updateUsername users uid hnew).Pairwise (fun u v => u.id ≠ v.id) := by
  refine pairwise_ids_map users _ ?_ hids
  intro v
  by_cases hv : (v.id == uid) = true <;> simp [hv]

lemma bound_updateUsername (users : List User) (uid : Nat) (hnew : String) (n : Nat)
    (h : ∀ u ∈ users, u.id < n) :
    ∀ u ∈ updateUsername users uid hnew, u.id < n := by
  refine bound_map users _ n ?_ h
  intro v
  by_cases hv : (v.id == uid) = true <;> simp [hv]

lemma inv_setName (st : DBState) (uid : Nat) (pn : String) (hInv : Inv st) :
    Inv { st with users := setName st.users uid pn, seq := st.seq + 1 } := by
  have hid : ∀ v : User,
      ((if v.id == uid then { v with name := some pn } else v) : User).id = v.id := by
    intro v
    by_cases hv : (v.id == uid) = true <;> simp [hv]
  have hun : ∀ v : User,
      ((if v.id == uid then { v with name := some pn } else v) : User).username = v.username := by
    intro v
    by_cases hv : (v.id == uid) = true <;> simp [hv]
  exact inv_users_only st _ _ (Nat.le_succ _)
    (pairwise_ids_map _ _ hid hInv.2.2.1.1)
    (bound_map _ _ _ hid hInv.2.2.1.2)
    (uniq_map_username_preserved _ _ hun hInv.2.2.2.1)
    (fmt_map_username_preserved _ _ hun hInv.2.2.2.2.1) hInv

lemma inv_updateUser (st : DBState) (uid : Nat) (hnew : String) (hInv : Inv st)
    (hfresh : ∀ v ∈ st.users, v.username ≠ some hnew)
    (hok : validFormat hnew = true ∧ 3 ≤ hnew.length ∧ hnew.length ≤ 32) :
    Inv { st with users := updateUsername st.users uid hnew, seq := st.seq + 1 } :=
  inv_users_only st _ _ (Nat.le_succ _)
    (ids_updateUsername _ _ _ hInv.2.2.1.1)
    (bound_updateUsername _ _ _ _ hInv.2.2.1.2)
    (uniq_updateUsername _ _ _ hfresh hInv.2.2.1.1 hInv.2.2.2.1)
    (fmt_updateUsername _ _ _ hInv.2.2.2.2.1 hok)
    hInv

lemma gen_ok (users : List User) (draws : List Draw) (h : String)
    (hgen : generateUsername users draws = some h) :
    (∀ v ∈ users, v.username ≠ some h) ∧
      validFormat h = true ∧ 3 ≤ h.length ∧ h.length ≤ 32 := by
  obtain ⟨⟨a, n, k, hc⟩, hfree⟩ := generateUsername_spec users draws h hgen
  refine ⟨(usernameTaken_false_iff _ _).mp hfree, ?_⟩
  subst hc
  exact ⟨validFormat_mkCandidate a n k, length_mkCandidate a n k⟩

lemma inv_signup (st : DBState) (email : String) (name nickname : Option String)
    (draws : List Draw) (hInv : Inv st) :
    Inv (upsertAuth0User st email name nickname draws).1 := by
  cases hfind : st.users.find? (fun u => u.email == email) with
  | none =>
    cases hgen : generateUsername st.users draws with
    | none =>
      simp only [upsertAuth0User, hfind, hgen]
      exact hInv
    | some h =>
      simp only [upsertAuth0User, hfind, hgen]
      refine inv_addUser st _ hInv rfl ?_
      intro h2 hh2
      have hh2' : h2 = h := (Option.some_injective _ hh2).symm
      subst hh2'
      exact gen_ok st.users draws h2 hgen
  | some u =>
    by_cases hdo :
        (strFalsy u.name && !(orElseStr name (orElseStr nickname email) == "")) = true
    · simp only [upsertAuth0User, hfind, hdo, if_true]
      have hInv1 := inv_setName st u.id (orElseStr name (orElseStr nickname email)) hInv
      by_cases hfal : strFalsy u.username = true
      · simp only [hfal, if_true]
        cases hgen : generateUsername (setName st.users u.id
            (orElseStr name (orElseStr nickname email))) draws with
        | none => exact hInv1
        | some h =>
          have hok := gen_ok _ draws h hgen
          exact inv_updateUser _ u.id h hInv1 hok.1 hok.2
      · simp only [hfal, if_false]
        exact hInv1
    · have hft : (false = true) = False := by simp
      simp only [upsertAuth0User, hfind, hdo, hft, if_false]
      by_cases hfal : strFalsy u.username = true
      · simp only [hfal, if_true]
        cases hgen : generateUsername st.users draws with
        | none => exact hInv
        | some h =>
          have hok := gen_ok _ draws h hgen
          exact inv_updateUser _ u.id h hInv hok.1 hok.2
      · simp only [hfal, hft, if_false]
        exact hInv

lemma inv_resolve (st : DBState) (cred : Option (Option SessionData)) (now : Nat)
    (draws : List Draw) (hInv : Inv st) :
    Inv (getUserFromRequest st cred now draws).2 := by
  rw [getUserFromRequest.eq_def]
  cases cred with
  | none => exact hInv
  | some c =>
    cases c with
    | none => exact hInv
    | some sd =>
      by_cases hexp : sd.exp < now
      · simp only [if_pos hexp]
        exact hInv
      · simp only [if_neg hexp]
        cases hfind : findUser st sd.userId with
        | none => exact hInv
        | some u =>
          by_cases hfal : strFalsy u.username = true
          · simp only [hfal, if_true]
            cases hgen : generateUsername st.users draws with
            | none => exact hInv
            | some h =>
              have hok := gen_ok _ draws h hgen
              exact inv_updateUser _ u.id h hInv hok.1 hok.2
          · simp only [hfal, if_false]
            exact hInv

lemma inv_profilePut (st : DBState) (uid? : Option Nat) (candidate : String) (hInv : Inv st) :
    Inv (putProfile st uid? candidate).1 := by
  rw [putProfile]
  cases hu : uid?.bind (findUser st) with
  | none => exact hInv
  | some u =>
    by_cases hraw : jsTrim candidate = ""
    · simp only [if_pos hraw]
      exact hInv
    · simp only [if_neg hraw]
      by_cases hval : (jsToLower (jsTrim candidate)).length < 3 ∨ 32 < (jsToLower (jsTrim candidate)).length ∨
          validFormat (jsToLower (jsTrim candidate)) = false
      · simp only [if_pos hval]
        exact hInv
      · simp only [if_neg hval]
        push_neg at hval
        have hok : validFormat (jsToLower (jsTrim candidate)) = true ∧
            3 ≤ (jsToLower (jsTrim candidate)).length ∧ (jsToLower (jsTrim candidate)).length ≤ 32 := by
          refine ⟨?_, by omega, by omega⟩
          cases hb : validFormat (jsToLower (jsTrim candidate)) with
          | true => rfl
          | false => exact absurd hb hval.2.2
        by_cases hself : u.username = some (jsToLower (jsTrim candidate))
        · simp only [if_pos hself]
          exact hInv
        · simp only [if_neg hself]
          have humem : u ∈ st.users := by
            cases uid? with
            | none => exact absurd hu (by simp)
            | some uid0 => exact List.mem_of_find?_eq_some (by simpa using hu)
          cases hfind : st.users.find? (fun v => v.username == some (jsToLower (jsTrim candidate))) with
          | none =>
            have hfresh : ∀ v ∈ st.users, v.username ≠ some (jsToLower (jsTrim candidate)) := by
              intro v hv
              have hnone := List.find?_eq_none.mp hfind v hv
              simpa using hnone
            exact inv_updateUser st u.id _ hInv hfresh hok
          | some v =>
            by_cases hvid : v.id = u.id
            · exfalso
              have hvmem : v ∈ st.users := List.mem_of_find?_eq_some hfind
              have hvun : v.username = some (jsToLower (jsTrim candidate)) := by
                have hp := List.find?_some hfind
                simpa using hp
              by_cases hvu : v = u
              · exact hself (hvu ▸ hvun)
              · have hsym : Symmetric (fun (x y : User) => x.id ≠ y.id) :=
                  fun x y hxy heq => hxy heq.symm
                exact List.Pairwise.forall hsym hInv.2.2.1.1 hvmem humem hvu hvid
            · simp only [if_neg hvid]
              exact hInv

lemma inv_memePost (st : DBState) (uid? : Option Nat) (content : String) (hInv : Inv st) :
    Inv (postMeme st uid? content).1 := by
  rw [postMeme]
  cases hu : uid?.bind (findUser st) with
  | none => exact hInv
  | some u =>
    by_cases hc : jsTrim content = ""
    · simp only [if_pos hc]
      exact hInv
    · simp only [if_neg hc]
      obtain ⟨hS, ⟨hSm, hSi⟩, hIds, hU, hF, hM, hFK, hA⟩ := hInv
      refine ⟨?_, ⟨?_, ?_⟩, hIds, hU, hF, ?_, ?_, ?_⟩
      · intro m hm
        rcases List.mem_append.mp hm with h1 | h1
        · exact hS m h1
        · rw [List.mem_singleton] at h1
          subst h1
          have h0 := sumDeltas_eq_zero st.interactions
            { id := st.nextMemeId, content := jsTrim content,
              author := if strFalsy u.username then orElseStr u.name u.email
                        else "@" ++ u.username.getD "",
              userId := some u.id, score := 100, createdAt := st.seq }
            (fun i hi => le_of_lt (hSi i hi))
          rw [h0]
          simp
      · intro m hm
        rcases List.mem_append.mp hm with h1 | h1
        · exact Nat.lt_succ_of_lt (hSm m h1)
        · rw [List.mem_singleton] at h1
          subst h1
          exact Nat.lt_succ_self _
      · intro i hi
        exact Nat.lt_succ_of_lt (hSi i hi)
      · intro m hm
        rcases List.mem_append.mp hm with h1 | h1
        · exact Nat.lt_succ_of_lt (hM m h1)
        · rw [List.mem_singleton] at h1
          subst h1
          exact Nat.lt_succ_self _
      · intro i hi
        obtain ⟨m, hm, hid⟩ := hFK i hi
        exact ⟨m, List.mem_append_left _ hm, hid⟩
      · intro i hi m hm hmi
        rcases List.mem_append.mp hm with h1 | h1
        · exact hA i hi m h1 hmi
        · rw [List.mem_singleton] at h1
          subst h1
          exfalso
          obtain ⟨m2, hm2, hid2⟩ := hFK i hi
          have hb := hM m2 hm2
          rw [hid2, hmi] at hb
          exact absurd hb (by simp)

lemma inv_interactionPost (st : DBState) (uid? : Option Nat) (memeId : Nat)
    (ty comment : String) (hInv : Inv st) :
    Inv (postInteraction st uid? memeId ty comment).1 := by
  rw [postInteraction, postInteractionF]
  cases hu : uid?.bind (findUser st) with
  | none => exact hInv
  | some u =>
    by_cases hv : memeId = 0 ∨ validType ty = false
    · simp only [if_pos hv]
      exact hInv
    · simp only [if_neg hv]
      by_cases hdup : hasTriple st memeId u.id ty = true
      · simp only [if_pos hdup]
        exact hInv
      · simp only [if_neg hdup]
        by_cases hfk : st.memes.any (fun m => m.id == memeId) = false
        · simp only [if_pos hfk]
          exact hInv
        · simp only [if_neg hfk]
          have hex : st.memes.any (fun m => m.id == memeId) = true := by
            cases hb : st.memes.any (fun m => m.id == memeId) with
            | true => rfl
            | false => exact absurd hb hfk
          have htf : ¬((true : Bool) = false) := by decide
          rw [if_neg htf, if_neg htf]
          obtain ⟨hS, ⟨hSm, hSi⟩, hIds, hU, hF, hM, hFK, hA⟩ := hInv
          have hgid : ∀ m : Meme,
              ((if (m.id == memeId) = true then { m with score := m.score + scoreChange ty }
                else m) : Meme).id = m.id := by
            intro m
            by_cases h2 : (m.id == memeId) = true <;> simp [h2]
          have hgc : ∀ m : Meme,
              ((if (m.id == memeId) = true then { m with score := m.score + scoreChange ty }
                else m) : Meme).createdAt = m.createdAt := by
            intro m
            by_cases h2 : (m.id == memeId) = true <;> simp [h2]
          refine ⟨?_, ⟨?_, ?_⟩, hIds, hU, hF, ?_, ?_, ?_⟩
          · intro m2 hm2
            rcases List.mem_map.mp hm2 with ⟨m, hm, rfl⟩
            have hms := hS m hm
            have hlt := hSm m hm
            by_cases hid : (m.id == memeId) = true
            · have hid2 : m.id = memeId := by simpa using hid
              simp only [hid, if_true]
              simp only [sumDeltas, hid2] at hms
              simp [sumDeltas, List.filter_append, List.filter_cons, hid2, hlt]
              omega
            · simp only [Bool.not_eq_true] at hid
              have hne : memeId ≠ m.id := by
                intro he
                rw [← he] at hid
                simp at hid
              simp only [hid, Bool.false_eq_true, if_false]
              simp [sumDeltas, List.filter_append, List.filter_cons, hne]
              simpa [sumDeltas] using hms
          · intro m2 hm2
            rcases List.mem_map.mp hm2 with ⟨m, hm, rfl⟩
            have hlt := hSm m hm
            rw [hgc m]
            exact Nat.lt_succ_of_lt hlt
          · intro i hi
            rcases List.mem_append.mp hi with h1 | h1
            · exact Nat.lt_succ_of_lt (hSi i h1)
            · rw [List.mem_singleton] at h1
              subst h1
              exact Nat.lt_succ_self _
          · intro m2 hm2
            rcases List.mem_map.mp hm2 with ⟨m, hm, rfl⟩
            rw [hgid m]
            exact hM m hm
          · intro i hi
            rcases List.mem_append.mp hi with h1 | h1
            · obtain ⟨m, hm, hid⟩ := hFK i h1
              refine ⟨_, List.mem_map_of_mem _ hm, ?_⟩
              rw [hgid m]
              exact hid
            · rw [List.mem_singleton] at h1
              subst h1
              obtain ⟨m1, hm1, hid1⟩ := List.any_eq_true.mp hex
              refine ⟨_, List.mem_map_of_mem _ hm1, ?_⟩
              rw [hgid m1]
              simpa using hid1
          · intro i hi m2 hm2 hmi
            rcases List.mem_map.mp hm2 with ⟨m, hm, rfl⟩
            rw [hgid m] at hmi
            rw [hgc m]
            rcases List.mem_append.mp hi with h1 | h1
            · exact hA i h1 m hm hmi
            · rw [List.mem_singleton] at h1
              subst h1
              have hmi2 : m.id = memeId := hmi.symm
              exact hSm m hm

lemma inv_step (st : DBState) (op : Op) (hInv : Inv st) : Inv (step st op) := by
  cases op with
  | legacy email =>
    exact inv_addUser st _ hInv rfl (fun h hcon => Option.noConfusion hcon)
  | signup email name nickname draws => exact inv_signup st email name nickname draws hInv
  | resolveReq sd now draws => exact inv_resolve st (some (some sd)) now draws hInv
  | profilePut uid c => exact inv_profilePut st uid c hInv
  | memePost uid c => exact inv_memePost st uid c hInv
  | interactionPost uid m t c => exact inv_interactionPost st uid m t c hInv

lemma inv_init : Inv initState := by
  refine ⟨?_, ⟨?_, ?_⟩, ⟨?_, ?_⟩, ?_, ?_, ?_, ?_, ?_⟩ <;>
    simp [initState, ScoreInv, StampInv, IdsInv, HandleUniqueInv, HandleFormatInv,
      MemeIdsInv, FKInv, AfterInv]

lemma inv_runOps (ops : List Op) : ∀ st, Inv st → Inv (runOps st ops) := by
  induction ops with
  | nil => intro st h; exact h
  | cons op ops ih => intro st h; exact ih _ (inv_step st op h)

/-- Every state reachable from the empty store satisfies all the
maintained invariants. -/
theorem inv_reachable (st : DBState) (h : Reachable st) : Inv st := by
  obtain ⟨ops, rfl⟩ := h
  exact inv_runOps ops initState inv_init

lemma findUser_mem (st : DBState) (uid : Nat) (u : User) (h : findUser st uid = some u) :
    u ∈ st.users ∧ u.id = uid := by
  refine ⟨List.mem_of_find?_eq_some h, ?_⟩
  have h1 := List.find?_some h
  simpa using h1

/-! ### The claims -/

/-- C1: in every reachable state (any sequence of item creations and
successfully recorded interactions starting from an empty store),
every item's score equals the baseline 100 plus the sum of the deltas
(refute -15, refine +10, praise +5) of all recorded interactions for
that item; each score update is the relative adjustment
score = score + delta.  The enforced foreign key on
interactions.meme_id rules out ledger rows recorded before the item
existed, and AUTOINCREMENT never reuses ids, so every recorded
interaction for an item postdates the item. -/
theorem C1_score_invariant (st : DBState) (h : Reachable st) :
    ∀ m ∈ st.memes, m.score = 100 + sumAllDeltas st.interactions m.id := by
  intro m hm
  have hInv := inv_reachable st h
  have hscore := hInv.1 m hm
  have heq : sumAllDeltas st.interactions m.id = sumDeltas st.interactions m :=
    sumAll_eq_sumDeltas st.interactions m
      (fun i hi hmi => hInv.2.2.2.2.2.2.2 i hi m hm hmi)
  rw [hscore, heq]

/-- C1 witness: the invariant evaluated on a concrete trace. -/
theorem C1_score_invariant_witness :
    praiseMeme.score = 100 + sumAllDeltas praiseState.interactions praiseMeme.id :=
  C1_score_invariant praiseState ⟨praiseOps, rfl⟩ praiseMeme (by decide)

/-- C2: a create-interaction request from a resolved user with a valid
type and the truthy id of a stored item fails with
DuplicateInteraction exactly when an identical (item, user, type)
triple is already recorded; on that failure the whole state is
unchanged (no ledger row, no score change), and without such a triple
(in particular for the same user and item with a different type) the
request succeeds. -/
theorem C2_duplicate_interaction (st : DBState) (uid : Nat) (u : User) (memeId : Nat)
    (ty comment : String) (hu : findUser st uid = some u) (hm : memeId ≠ 0)
    (ht : validType ty = true)
    (hmeme : st.memes.any (fun m => m.id == memeId) = true) :
    (postInteraction st (some uid) memeId ty comment = (st, Resp.duplicate) ↔
      hasTriple st memeId u.id ty = true) ∧
    (hasTriple st memeId u.id ty = false →
      (postInteraction st (some uid) memeId ty comment).2 = Resp.ok) := by
  have hcond : ¬(memeId = 0 ∨ validType ty = false) := by simp [hm, ht]
  rw [postInteraction, postInteractionF,
    show (some uid).bind (findUser st) = some u from hu]
  simp only [if_neg hcond]
  by_cases hdup : hasTriple st memeId u.id ty = true
  · simp only [if_pos hdup]
    exact ⟨by simp [hdup], fun hfalse => absurd hdup (by simp [hfalse])⟩
  · simp only [if_neg hdup]
    have hfk : ¬(st.memes.any (fun m => m.id == memeId) = false) := by simp [hmeme]
    simp only [if_neg hfk]
    have htf : ¬((true : Bool) = false) := by decide
    rw [if_neg htf, if_neg htf]
    constructor
    · constructor
      · intro heq
        exact absurd (congrArg Prod.snd heq) (by simp)
      · intro htrip
        exact absurd htrip hdup
    · intro _
      rfl

/-- C2 witness: a second refute on the same item is rejected with the
state unchanged, while a praise by the same user succeeds. -/
theorem C2_duplicate_interaction_witness :
    postInteraction refuteState (some 1) 1 "refute" "" = (refuteState, Resp.duplicate) ∧
    (postInteraction refuteState (some 1) 1 "praise" "").2 = Resp.ok := by
  have h1 := C2_duplicate_interaction refuteState 1
    { id := 1, email := "a@x", username := none, name := none } 1 "refute" ""
    (by decide) (by decide) (by decide) (by decide)
  have h2 := C2_duplicate_interaction refuteState 1
    { id := 1, email := "a@x", username := none, name := none } 1 "praise" ""
    (by decide) (by decide) (by decide) (by decide)
  exact ⟨h1.1.mpr (by decide), h2.2 (by decide)⟩

/-- C3, as stated, is false: the session cookie is base64-encoded JSON
with no signature, so resolve accepts a payload that carries a stored
user's id even though no call to buildSessionCookie, for any user
record, auth0 profile or issuance time, can ever have produced it
(its expiry lies below every possible issuance expiry). -/
theorem C3_claim_counterexample :
    (getUserFromRequest aliceState (some (some forgedSession)) 3 []).1 = some aliceUser ∧
    ∀ (v : User) (an anick asub : Option String) (t : Nat),
      buildSessionCookie v an anick asub t ≠ forgedSession := by
  constructor
  · decide
  · intro v an anick asub t heq
    have hexp : (buildSessionCookie v an anick asub t).exp = forgedSession.exp := by
      rw [heq]
    simp only [buildSessionCookie, sessionDurationMs, forgedSession] at hexp
    omega

/-- C3 amended: the credential is an unsigned base64-encoded JSON
object, and resolve accepts any payload that decodes, is unexpired and
embeds the id of an existing user, regardless of whether
buildSessionCookie ever issued it; no signing capability is needed to
construct an accepted credential. -/
theorem C3_resolve_accepts_unissued (st : DBState) (sd : SessionData) (now : Nat)
    (draws : List Draw) (u : User) (hexp : ¬ sd.exp < now)
    (hfind : findUser st sd.userId = some u) (hh : strFalsy u.username = false) :
    (getUserFromRequest st (some (some sd)) now draws).1 = some u := by
  rw [getUserFromRequest.eq_def]
  simp only [if_neg hexp, hfind, hh, Bool.false_eq_true, if_false]

/-- C3 witness: the forged payload of the counterexample is accepted
through the amended characterisation. -/
theorem C3_resolve_accepts_unissued_witness :
    (getUserFromRequest aliceState (some (some forgedSession)) 3 []).1 = some aliceUser :=
  C3_resolve_accepts_unissued aliceState forgedSession 3 [] aliceUser
    (by decide) (by decide) (by decide)

/-- C4: the ledger INSERT and the score UPDATE are two separate,
non-transactional statements.  When the INSERT commits and the UPDATE
then fails, the request is reported as a 500 server error yet the
committed interaction row stays in the ledger while the item's score
is unchanged: an orphaned ledger entry without its score effect. -/
theorem C4_orphaned_ledger_row :
    (postInteractionF oneMemeState (some 1) 1 "praise" "" true false).2 = Resp.serverError ∧
    (∃ i ∈ (postInteractionF oneMemeState (some 1) 1 "praise" "" true false).1.interactions,
      i.memeId = 1 ∧ i.userId = 1 ∧ i.ty = "praise") ∧
    (∀ m ∈ (postInteractionF oneMemeState (some 1) 1 "praise" "" true false).1.memes,
      m.score = 100) := by
  decide

/-- C5, as stated, is false: with a present, parseable, unexpired
credential whose embedded user exists, resolve can still return none,
namely when the user lacks a handle and the 25 allocation attempts all
collide; the thrown allocation error is swallowed by the try/catch. -/
theorem C5_claim_counterexample :
    (¬ legacySession.exp < 50) ∧
    findUser exhaustState legacySession.userId =
      some { id := 1, email := "a@x", username := none, name := none } ∧
    (getUserFromRequest exhaustState (some (some legacySession)) 50 collidingDraws).1
      = none := by
  refine ⟨by decide, by decide, by decide⟩

/-- C5 amended: resolve is total and never surfaces an error; it
returns none exactly when the credential is missing, unparseable or
expired, when the embedded user id matches no user, or when the user
lacks a handle and the bounded handle allocation exhausts (the thrown
allocation error is swallowed); in all remaining cases it returns the
stored user, backfilled with a fresh handle when one was missing. -/
theorem C5_resolve_cases (st : DBState) (cred : Option (Option SessionData))
    (now : Nat) (draws : List Draw) :
    (cred = none → (getUserFromRequest st cred now draws).1 = none) ∧
    (cred = some none → (getUserFromRequest st cred now draws).1 = none) ∧
    (∀ sd, cred = some (some sd) → sd.exp < now →
      (getUserFromRequest st cred now draws).1 = none) ∧
    (∀ sd, cred = some (some sd) → findUser st sd.userId = none →
      (getUserFromRequest st cred now draws).1 = none) ∧
    (∀ sd u, cred = some (some sd) → ¬ sd.exp < now → findUser st sd.userId = some u →
      strFalsy u.username = true → generateUsername st.users draws = none →
      (getUserFromRequest st cred now draws).1 = none) ∧
    (∀ sd u, cred = some (some sd) → ¬ sd.exp < now → findUser st sd.userId = some u →
      strFalsy u.username = false → (getUserFromRequest st cred now draws).1 = some u) ∧
    (∀ sd u h2, cred = some (some sd) → ¬ sd.exp < now → findUser st sd.userId = some u →
      strFalsy u.username = true → generateUsername st.users draws = some h2 →
      (getUserFromRequest st cred now draws).1 = some { u with username := some h2 }) := by
  refine ⟨?_, ?_, ?_, ?_, ?_, ?_, ?_⟩
  · intro h
    subst h
    rfl
  · intro h
    subst h
    rfl
  · intro sd h hexp
    subst h
    rw [getUserFromRequest.eq_def]
    simp only [if_pos hexp]
  · intro sd h hfind
    subst h
    rw [getUserFromRequest.eq_def]
    by_cases hexp : sd.exp < now
    · simp only [if_pos hexp]
    · simp only [if_neg hexp, hfind]
  · intro sd u h hexp hfind hfal hgen
    subst h
    rw [getUserFromRequest.eq_def]
    simp only [if_neg hexp, hfind, hfal, if_true, hgen]
  · intro sd u h hexp hfind hfal
    subst h
    rw [getUserFromRequest.eq_def]
    simp only [if_neg hexp, hfind, hfal, Bool.false_eq_true, if_false]
  · intro sd u h2 h hexp hfind hfal hgen
    subst h
    rw [getUserFromRequest.eq_def]
    simp only [if_neg hexp, hfind, hfal, if_true, hgen]

/-- C5 witness: the allocation-success branch of the amended
characterisation at a concrete state. -/
theorem C5_resolve_cases_witness :
    (getUserFromRequest exhaustState (some (some legacySession)) 50 [(1, 1, 1)]).1 =
      some { id := 1, email := "a@x", username := some "bold-comet-101", name := none } :=
  (C5_resolve_cases exhaustState (some (some legacySession)) 50 [(1, 1, 1)]).2.2.2.2.2.2
    legacySession { id := 1, email := "a@x", username := none, name := none }
    "bold-comet-101" rfl (by decide) (by decide) (by decide) (by decide)

/-- C6: in every reachable state no two distinct users hold the same
username, and an update-handle request whose trimmed, lowercased
candidate is already held by a different user returns the 409
HandleTaken rejection with the state fully unchanged. -/
theorem C6_handle_uniqueness (st : DBState) (h : Reachable st) :
    HandleUniqueInv st ∧
    ∀ uid u v candidate, findUser st uid = some u → v ∈ st.users → v.id ≠ u.id →
      v.username = some ((jsToLower (jsTrim candidate))) →
      putProfile st (some uid) candidate = (st, Resp.usernameTaken) := by
  have hInv := inv_reachable st h
  refine ⟨hInv.2.2.2.1, ?_⟩
  intro uid u v candidate hu hv hne hvn
  have humem : u ∈ st.users := List.mem_of_find?_eq_some hu
  have hfmt := hInv.2.2.2.2.1 v hv ((jsToLower (jsTrim candidate))) hvn
  have hraw : ¬(jsTrim candidate = "") := by
    intro he
    have he2 : (jsToLower (jsTrim candidate)) = "" := by rw [he]; rfl
    rw [he2] at hfmt
    exact absurd hfmt.2.1 (by decide)
  have hself : ¬(u.username = some ((jsToLower (jsTrim candidate)))) := by
    intro hu2
    have hneq : u ≠ v := fun he => hne (by rw [he])
    have hsym : Symmetric
        (fun (x y : User) => ∀ h2, ¬(x.username = some h2 ∧ y.username = some h2)) := by
      intro x y hxy h2 hcon
      exact hxy h2 ⟨hcon.2, hcon.1⟩
    exact List.Pairwise.forall hsym hInv.2.2.2.1 humem hv hneq _ ⟨hu2, hvn⟩
  have hval : ¬((jsToLower (jsTrim candidate)).length < 3 ∨ 32 < (jsToLower (jsTrim candidate)).length ∨
      validFormat ((jsToLower (jsTrim candidate))) = false) := by
    intro hor
    rcases hor with h1 | h1 | h1
    · exact absurd h1 (by omega)
    · exact absurd h1 (by omega)
    · rw [hfmt.1] at h1
      exact Bool.noConfusion h1
  cases hfind : st.users.find? (fun x => x.username == some ((jsToLower (jsTrim candidate)))) with
  | none =>
    exfalso
    have hnone := List.find?_eq_none.mp hfind v hv
    simp [hvn] at hnone
  | some w =>
    have hwmem : w ∈ st.users := List.mem_of_find?_eq_some hfind
    have hwn : w.username = some ((jsToLower (jsTrim candidate))) := by
      have hp := List.find?_some hfind
      simpa using hp
    have hwid : ¬(w.id = u.id) := by
      intro he
      by_cases hwu : w = u
      · exact hself (hwu ▸ hwn)
      · have hsym : Symmetric (fun (x y : User) => x.id ≠ y.id) :=
          fun x y hxy heq => hxy heq.symm
        exact List.Pairwise.forall hsym hInv.2.2.1.1 hwmem humem hwu he
    rw [putProfile, show (some uid).bind (findUser st) = some u from hu]
    simp only [if_neg hraw, if_neg hval, if_neg hself, hfind, if_neg hwid]

/-- C6 witness: bob trying to claim Alice-One (normalising to
alice-one) is rejected with HandleTaken. -/
theorem C6_handle_uniqueness_witness :
    putProfile twoHandleState (some 2) " Alice-One " = (twoHandleState, Resp.usernameTaken) :=
  (C6_handle_uniqueness twoHandleState ⟨twoHandleOps, rfl⟩).2 2
    { id := 2, email := "b@x", username := some "bob-two", name := none }
    { id := 1, email := "a@x", username := some "alice-one", name := none }
    " Alice-One " (by decide) (by decide) (by decide) (by decide)

/-- C7: for a reachable state, submitting an update-handle request
whose candidate trims and lowercases to the user's current handle hits
the self-set branch: it succeeds, returns the unchanged profile with
the unchanged state, and never reaches the HandleTaken check. -/
theorem C7_self_set_idempotent (st : DBState) (h : Reachable st) (uid : Nat) (u : User)
    (candidate : String) (hu : findUser st uid = some u)
    (hun : u.username = some ((jsToLower (jsTrim candidate)))) :
    putProfile st (some uid) candidate = (st, Resp.profile u.email u.username u.name) := by
  have hInv := inv_reachable st h
  have humem : u ∈ st.users := List.mem_of_find?_eq_some hu
  have hfmt := hInv.2.2.2.2.1 u humem ((jsToLower (jsTrim candidate))) hun
  have hraw : ¬(jsTrim candidate = "") := by
    intro he
    have he2 : (jsToLower (jsTrim candidate)) = "" := by rw [he]; rfl
    rw [he2] at hfmt
    exact absurd hfmt.2.1 (by decide)
  have hval : ¬((jsToLower (jsTrim candidate)).length < 3 ∨ 32 < (jsToLower (jsTrim candidate)).length ∨
      validFormat ((jsToLower (jsTrim candidate))) = false) := by
    intro hor
    rcases hor with h1 | h1 | h1
    · exact absurd h1 (by omega)
    · exact absurd h1 (by omega)
    · rw [hfmt.1] at h1
      exact Bool.noConfusion h1
  rw [putProfile, show (some uid).bind (findUser st) = some u from hu]
  simp only [if_neg hraw, if_neg hval, if_pos hun]

/-- C7 witness: a self-set through a differently-cased, padded
candidate succeeds and returns the unchanged profile. -/
theorem C7_self_set_idempotent_witness :
    putProfile selfSetState (some 1) " MY-handle " =
      (selfSetState, Resp.profile "a@x" (some "my-handle") none) :=
  C7_self_set_idempotent selfSetState ⟨selfSetOps, rfl⟩ 1
    { id := 1, email := "a@x", username := some "my-handle", name := none }
    " MY-handle " (by decide) (by decide)

/-- C8: when resolution finds the stored user without a handle and the
allocation succeeds, the resolved user carries the allocated handle,
the handle is persisted, it satisfies the pattern and the 3-32 length
bound and is composed as adjective-noun-three-digit-number, and a
subsequent resolution of the same credential returns the same
handle. -/
theorem C8_lazy_backfill (st : DBState) (sd : SessionData) (now now2 : Nat)
    (draws draws2 : List Draw) (u : User) (h2 : String)
    (hexp : ¬ sd.exp < now) (hfind : findUser st sd.userId = some u)
    (hnone : strFalsy u.username = true)
    (hgen : generateUsername st.users draws = some h2)
    (hexp2 : ¬ sd.exp < now2) :
    getUserFromRequest st (some (some sd)) now draws =
      (some { u with username := some h2 },
       { st with users := updateUsername st.users u.id h2, seq := st.seq + 1 }) ∧
    validFormat h2 = true ∧ 3 ≤ h2.length ∧ h2.length ≤ 32 ∧
    (∃ a n k, h2 = mkCandidate a n k) ∧
    (getUserFromRequest (getUserFromRequest st (some (some sd)) now draws).2
        (some (some sd)) now2 draws2).1 = some { u with username := some h2 } := by
  have hok := gen_ok st.users draws h2 hgen
  have hspec := generateUsername_spec st.users draws h2 hgen
  have he1 : getUserFromRequest st (some (some sd)) now draws =
      (some { u with username := some h2 },
       { st with users := updateUsername st.users u.id h2, seq := st.seq + 1 }) := by
    rw [getUserFromRequest.eq_def]
    simp only [if_neg hexp, hfind, hnone, if_true, hgen]
  have huid : u.id = sd.userId := (findUser_mem st sd.userId u hfind).2
  have hne : h2 ≠ "" := by
    obtain ⟨a, n, k, hc⟩ := hspec.1
    rw [hc]
    exact mkCandidate_ne_empty a n k
  refine ⟨he1, hok.2.1, hok.2.2.1, hok.2.2.2, hspec.1, ?_⟩
  rw [he1]
  have hfind2 : findUser
      { st with users := updateUsername st.users u.id h2, seq := st.seq + 1 } sd.userId =
      some { u with username := some h2 } := by
    show (updateUsername st.users u.id h2).find? (fun v => v.id == sd.userId) =
      some { u with username := some h2 }
    conv_lhs => rw [huid]
    exact findUser_update st.users sd.userId h2 u hfind
  rw [getUserFromRequest.eq_def]
  simp only [if_neg hexp2, hfind2]
  have hfal2 : strFalsy (some h2) = false := by simp [strFalsy, hne]
  simp only [hfal2, Bool.false_eq_true, if_false]

/-- C8 witness: the handle-less user of exhaustState gets
bold-comet-101 and a second resolution returns it again. -/
theorem C8_lazy_backfill_witness :
    validFormat "bold-comet-101" = true ∧
    (getUserFromRequest
        (getUserFromRequest exhaustState (some (some legacySession)) 50 [(1, 1, 1)]).2
        (some (some legacySession)) 60 []).1 =
      some { id := 1, email := "a@x", username := some "bold-comet-101", name := none } := by
  have h := C8_lazy_backfill exhaustState legacySession 50 60 [(1, 1, 1)] []
    { id := 1, email := "a@x", username := none, name := none } "bold-comet-101"
    (by decide) (by decide) (by decide) (by decide) (by decide)
  exact ⟨h.2.1, h.2.2.2.2.2⟩

/-- C10, as stated, is false: the claim asserts that a request for a
truthy item id referencing no stored item returns success and inserts
a ledger row, but the foreign key interactions.meme_id REFERENCES
memes(id) from schema.sql, enforced by D1, makes the INSERT throw; the
catch-all reports a 500 and nothing is written. -/
theorem C10_claim_counterexample :
    postInteraction oneUserState (some 1) 7 "refine" "x" =
      (oneUserState, Resp.serverError) := by
  decide

/-- C10 amended: the handler itself performs no item-existence check
(it never queries the memes table); a request from a resolved user
with a valid type and a truthy item id referencing no stored item and
no prior (item, user, type) record passes validation and the
duplicate check and fails only at the storage layer, where the ledger
INSERT violates the meme_id foreign key: the request returns a
generic 500 server error and the state is unchanged (no ledger row,
no score change). -/
theorem C10_dangling_id_fk_rejected (st : DBState) (uid : Nat) (u : User) (memeId : Nat)
    (ty comment : String) (hu : findUser st uid = some u) (hm : memeId ≠ 0)
    (ht : validType ty = true)
    (hno : ∀ m ∈ st.memes, m.id ≠ memeId)
    (hdup : hasTriple st memeId u.id ty = false) :
    postInteraction st (some uid) memeId ty comment = (st, Resp.serverError) := by
  have hcond : ¬(memeId = 0 ∨ validType ty = false) := by simp [hm, ht]
  have hdup2 : ¬(hasTriple st memeId u.id ty = true) := by simp [hdup]
  have hfk : st.memes.any (fun m => m.id == memeId) = false := by
    rw [List.any_eq_false]
    intro m hm2
    have hne := hno m hm2
    simp [hne]
  rw [postInteraction, postInteractionF,
    show (some uid).bind (findUser st) = some u from hu]
  simp only [if_neg hcond, if_neg hdup2, if_pos hfk]

/-- C10 witness: an interaction on the nonexistent item id 9 is
rejected by the foreign key with a 500 and no state change. -/
theorem C10_dangling_id_fk_rejected_witness :
    postInteraction oneUserState (some 1) 9 "praise" "" =
      (oneUserState, Resp.serverError) :=
  C10_dangling_id_fk_rejected oneUserState 1
    { id := 1, email := "a@x", username := none, name := none } 9 "praise" ""
    (by decide) (by decide) (by decide) (by decide) (by decide)

end MemeRep
